import Mathlib

/-!
Verification development for the kernel-communication and
execution-correlation subsystem of a terminal notebook client
(`src/app.rs`, `src/kernel/client.rs`, `src/kernel/manager.rs`,
`src/notebook/model.rs`).

The Rust code is shallowly embedded: structs become structures, enums
become inductives, `HashMap` becomes an association list with
insert-replace / remove / get operations mirroring `std::collections::
HashMap`, and the filesystem touched by the process supervisor becomes
an explicit path-to-contents association list.  Request identifiers
(`msg_id`, freshly generated UUID strings in the Rust dependency
`jupyter_protocol`) are modelled as natural numbers drawn from a
monotone counter: identifiers are opaque tokens compared only for
equality, and the counter captures the guarantee that an identifier is
generated per send and never reused.
-/

namespace JupyterTui

/-- `notebook::model::CellType` (src/notebook/model.rs). -/
inductive CellType where
  | Code
  | Markdown
  | Raw
deriving DecidableEq, Repr

/-- `notebook::model::ExecutionState` (src/notebook/model.rs). -/
inductive ExecutionState where
  | Idle
  | Running
  | Done
  | Error
deriving DecidableEq, Repr

/-- `notebook::model::CellOutput` (src/notebook/model.rs).  The
`HashMap<String, String>` MIME payloads are modelled as association
lists. -/
inductive CellOutput where
  | Stream (name : String) (text : String)
  | DisplayData (data : List (String × String))
  | ExecuteResult (execution_count : Nat) (data : List (String × String))
  | Error (ename : String) (evalue : String) (traceback : List String)
deriving DecidableEq, Repr

/-- `notebook::model::Cell` (src/notebook/model.rs), together with the
`rendered` flag that `app.rs` reads and writes on Markdown cells. -/
structure Cell where
  id : String
  cell_type : CellType
  source : String
  outputs : List CellOutput
  execution_count : Option Nat
  execution_state : ExecutionState
  rendered : Bool
deriving DecidableEq, Repr

/-- `Cell::clear_outputs` (src/notebook/model.rs): clear outputs and
reset the execution state. -/
def Cell.clear_outputs (c : Cell) : Cell :=
  { c with outputs := [], execution_state := ExecutionState.Idle }

/-- Request identifiers (`msg_id`): opaque fresh tokens, modelled as
naturals drawn from a counter. -/
abbrev MsgId := Nat

/-- The `executing_cells : HashMap<String, usize>` field of `App`,
mapping in-flight execute-request identifiers to cell indices. -/
abbrev PendingTable := List (MsgId × Nat)

/-- `HashMap::insert`: replaces any existing binding of the key. -/
def hmInsert (m : PendingTable) (k : MsgId) (v : Nat) : PendingTable :=
  (k, v) :: m.filter (fun p => p.1 ≠ k)

/-- `HashMap::get(k).copied()`: the value bound to `k`, if any. -/
def hmGet (m : PendingTable) (k : MsgId) : Option Nat :=
  (m.find? (fun p => p.1 = k)).map (fun p => p.2)

/-- `HashMap::remove(k)`: the removed value (if the key was bound)
together with the map without the key. -/
def hmRemove (m : PendingTable) (k : MsgId) : Option Nat × PendingTable :=
  (hmGet m k, m.filter (fun p => p.1 ≠ k))

/-- Kernel execution status carried by an IOPub status message
(`jupyter_protocol::ExecutionState`). -/
inductive KStatus where
  | Busy
  | Idle
  | Starting
deriving DecidableEq, Repr

/-- `format!("{:?}", status.execution_state).to_lowercase()` applied to
a `KStatus`: the lowercased debug representation. -/
def KStatus.toLowerString : KStatus → String
  | KStatus.Busy => "busy"
  | KStatus.Idle => "idle"
  | KStatus.Starting => "starting"

/-- The IOPub message contents `App::handle_kernel_message`
distinguishes (`JupyterMessageContent` branches actually used in
src/app.rs).  Stream names arrive already lowercased, mirroring
`format!("{:?}", stream.name).to_lowercase()`; MIME bundles are the
association lists the Rust code builds from the media content. -/
inductive IoPubContent where
  | Status (st : KStatus)
  | StreamContent (name : String) (text : String)
  | ExecuteResult (execution_count : Nat) (data : List (String × String))
  | ErrorOutput (ename : String) (evalue : String) (traceback : List String)
  | DisplayData (data : List (String × String))
  | ExecuteInput
  | Other
deriving DecidableEq, Repr

/-- An IOPub `JupyterMessage` as seen by the correlation engine: the
optional parent-header back-reference plus the content. -/
structure IoPubMsg where
  parent_msg_id : Option MsgId
  content : IoPubContent
deriving DecidableEq, Repr

/-- `kernel::client::KernelMessage` (src/kernel/client.rs). -/
inductive KernelMessage where
  | IoPub (msg : IoPubMsg)
  | ShellReply
  | IoPubError (e : String)
deriving DecidableEq, Repr

/-- `kernel::client::KernelClient` (src/kernel/client.rs): the shell /
control connections reduced to what the embedding tracks — the fresh
identifier counter and the log of execute requests sent on the shell
channel. -/
structure KernelClient where
  nextId : MsgId
  sent : List (MsgId × String)
deriving DecidableEq, Repr

/-- `KernelClient::execute` (src/kernel/client.rs lines 92-101):
serialize an execute request, send it on the shell channel, and return
the freshly generated `msg_id`. -/
def KernelClient.execute (c : KernelClient) (code : String) :
    MsgId × KernelClient :=
  (c.nextId, { nextId := c.nextId + 1, sent := c.sent ++ [(c.nextId, code)] })

/-- The slice of `App` (src/app.rs) that the kernel-communication and
correlation subsystem reads and writes.  The text editor is out of
scope (spec §1): in this model no editor is active, so
`sync_editor_to_cell` is the identity and is inlined away.
`image_states` keeps only the `(cell_index, output_index)` keys of the
cached image protocol states. -/
structure App where
  notebook_cells : List Cell
  selected_cell : Nat
  status_message : String
  kernel_status : String
  image_states : List (Nat × Nat)
  executing_cells : PendingTable
  kernel_client : KernelClient
deriving DecidableEq, Repr

/-- The Rust `self.outputs.iter_mut().any(...)` closure of the
StreamContent branch (src/app.rs lines 297-305): walk the outputs in
order; at the first `Stream` record whose name matches, append the text
and stop, reporting `true`; otherwise report `false` with the list
unchanged. -/
def streamAppendAny (outs : List CellOutput) (name text : String) :
    List CellOutput × Bool :=
  match outs with
  | [] => ([], false)
  | CellOutput.Stream n t :: rest =>
      if n = name then (CellOutput.Stream n (t ++ text) :: rest, true)
      else
        let r := streamAppendAny rest name text
        (CellOutput.Stream n t :: r.1, r.2)
  | o :: rest =>
      let r := streamAppendAny rest name text
      (o :: r.1, r.2)

/-- The full StreamContent output update (src/app.rs lines 296-311):
append to the existing record of that stream name if one exists, else
push a new `Stream` record. -/
def processStream (outs : List CellOutput) (name text : String) :
    List CellOutput :=
  let r := streamAppendAny outs name text
  if r.2 then r.1 else r.1 ++ [CellOutput.Stream name text]

/-- `App::handle_kernel_message` (src/app.rs lines 258-377): apply one
message pulled from the kernel event queue to the application state. -/
def handleKernelMessage (app : App) (msg : KernelMessage) : App :=
  match msg with
  | KernelMessage.IoPub jmsg =>
    match jmsg.content with
    | IoPubContent.Status st =>
        let app1 : App :=
          { app with
            kernel_status := st.toLowerString,
            status_message :=
              if app.status_message = "Kernel starting..." then ""
              else app.status_message }
        if app1.kernel_status = "idle" then
          match jmsg.parent_msg_id with
          | some msgId =>
            let rem := hmRemove app1.executing_cells msgId
            let app2 : App := { app1 with executing_cells := rem.2 }
            match rem.1 with
            | some cellIdx =>
              match app2.notebook_cells[cellIdx]? with
              | some cell =>
                  if cell.execution_state = ExecutionState.Running then
                    { app2 with
                      notebook_cells :=
                        app2.notebook_cells.set cellIdx
                          { cell with execution_state := ExecutionState.Done } }
                  else app2
              | none => app2
            | none => app2
          | none => app1
        else app1
    | IoPubContent.StreamContent name text =>
        match jmsg.parent_msg_id.bind (fun id => hmGet app.executing_cells id) with
        | some cellIdx =>
          match app.notebook_cells[cellIdx]? with
          | some cell =>
              { app with
                notebook_cells :=
                  app.notebook_cells.set cellIdx
                    { cell with outputs := processStream cell.outputs name text } }
          | none => app
        | none => app
    | IoPubContent.ExecuteResult n data =>
        match jmsg.parent_msg_id.bind (fun id => hmGet app.executing_cells id) with
        | some cellIdx =>
          match app.notebook_cells[cellIdx]? with
          | some cell =>
              { app with
                notebook_cells :=
                  app.notebook_cells.set cellIdx
                    { cell with
                      outputs := cell.outputs ++ [CellOutput.ExecuteResult n data],
                      execution_count := some n } }
          | none => app
        | none => app
    | IoPubContent.ErrorOutput ename evalue tb =>
        match jmsg.parent_msg_id.bind (fun id => hmGet app.executing_cells id) with
        | some cellIdx =>
          match app.notebook_cells[cellIdx]? with
          | some cell =>
              { app with
                notebook_cells :=
                  app.notebook_cells.set cellIdx
                    { cell with
                      outputs := cell.outputs ++ [CellOutput.Error ename evalue tb],
                      execution_state := ExecutionState.Error } }
          | none => app
        | none => app
    | IoPubContent.DisplayData data =>
        match jmsg.parent_msg_id.bind (fun id => hmGet app.executing_cells id) with
        | some cellIdx =>
          match app.notebook_cells[cellIdx]? with
          | some cell =>
              { app with
                notebook_cells :=
                  app.notebook_cells.set cellIdx
                    { cell with outputs := cell.outputs ++ [CellOutput.DisplayData data] } }
          | none => app
        | none => app
    | IoPubContent.ExecuteInput => app
    | IoPubContent.Other => app
  | KernelMessage.ShellReply => app
  | KernelMessage.IoPubError e =>
      { app with status_message := "IOPub error: " ++ e }

/-- `App::execute_selected_cell` (src/app.rs lines 380-409).  `none`
models the Rust index panic when `selected_cell` is out of range; on
every in-range input the function mirrors the source: Markdown cells
are only marked rendered, non-Code non-Markdown cells only set a status
message, and Code cells have outputs cleared, state set to Running,
their cached images invalidated, the request sent, and the
`(msg_id, cell index)` pair inserted into `executing_cells`. -/
def executeSelectedCell (app : App) : Option App :=
  match app.notebook_cells[app.selected_cell]? with
  | none => none
  | some cell =>
    if cell.cell_type = CellType.Markdown then
      some { app with
             notebook_cells :=
               app.notebook_cells.set app.selected_cell { cell with rendered := true } }
    else if cell.cell_type ≠ CellType.Code then
      some { app with status_message := "Can only execute code cells" }
    else
      let code := cell.source
      let cell1 := { cell.clear_outputs with execution_state := ExecutionState.Running }
      let app1 : App :=
        { app with
          notebook_cells := app.notebook_cells.set app.selected_cell cell1,
          image_states := app.image_states.filter (fun p => p.1 ≠ app.selected_cell) }
      let r := app1.kernel_client.execute code
      some { app1 with
             kernel_client := r.2,
             executing_cells := hmInsert app1.executing_cells r.1 app1.selected_cell }

/-- One iteration of the `App::execute_all_cells` loop body
(src/app.rs lines 416-435) at index `idx`.  The `none` branch is
unreachable in `executeAllCells`, which only passes in-range indices;
it stands for the fact that the loop bound is the cell count. -/
def execCellAt (app : App) (idx : Nat) : App :=
  match app.notebook_cells[idx]? with
  | none => app
  | some cell =>
    if cell.cell_type = CellType.Markdown then
      { app with
        notebook_cells := app.notebook_cells.set idx { cell with rendered := true } }
    else if cell.cell_type ≠ CellType.Code then app
    else
      let cell1 := { cell.clear_outputs with execution_state := ExecutionState.Running }
      let app1 : App :=
        { app with notebook_cells := app.notebook_cells.set idx cell1 }
      let r := app1.kernel_client.execute cell.source
      { app1 with
        kernel_client := r.2,
        executing_cells := hmInsert app1.executing_cells r.1 idx }

/-- The `for idx in 0..len` loop of `App::execute_all_cells`, folded
over an explicit index list. -/
def execAllGo (app : App) : List Nat → App
  | [] => app
  | i :: rest => execAllGo (execCellAt app i) rest

/-- `App::execute_all_cells` (src/app.rs lines 412-442): run every cell
in order, then clear all cached image states and set the status
message. -/
def executeAllCells (app : App) : App :=
  let app1 := execAllGo app (List.range app.notebook_cells.length)
  { app1 with image_states := [], status_message := "Running all cells..." }

/-- `App::restart_kernel` (src/app.rs lines 445-478).  The status
fields, the pending-execution table, and the image cache are updated
before any fallible await; `reconnectOk` says whether the subsequent
process restart and reconnect succeeded (on failure the error
propagates with the clears already applied; on success a fresh client
is installed — the identifier counter stays monotone because UUIDs are
never reused across sessions — and the final status message is set). -/
def restartKernel (app : App) (reconnectOk : Bool) : App :=
  let app1 : App :=
    { app with
      status_message := "Restarting kernel...",
      kernel_status := "restarting",
      executing_cells := [],
      image_states := [] }
  if reconnectOk then
    { app1 with
      kernel_client := { nextId := app1.kernel_client.nextId, sent := [] },
      status_message := "Kernel restarted" }
  else app1

/-- `jupyter_protocol::ConnectionInfo` as built in
`KernelManager::start` (src/kernel/manager.rs lines 45-56). -/
structure ConnectionInfo where
  ip : String
  transport : String
  shell_port : Nat
  iopub_port : Nat
  stdin_port : Nat
  control_port : Nat
  hb_port : Nat
  key : String
  signature_scheme : String
  kernel_name : Option String
deriving DecidableEq, Repr

/-- `serde_json::to_string_pretty(&connection_info)`: modelled as a
deterministic rendition of every field, so that equal descriptors
serialize to equal file contents. -/
def serializeConnection (ci : ConnectionInfo) : String :=
  String.intercalate "|"
    [ci.ip, ci.transport, toString ci.shell_port, toString ci.iopub_port,
     toString ci.stdin_port, toString ci.control_port, toString ci.hb_port,
     ci.key, ci.signature_scheme, ci.kernel_name.getD "null"]

/-- The runtime directory slice of the filesystem: path → contents. -/
abbrev Fs := List (String × String)

/-- `tokio::fs::write`: create or overwrite the file at `path`. -/
def fsWrite (fs : Fs) (path content : String) : Fs :=
  (path, content) :: fs.filter (fun p => p.1 ≠ path)

/-- `tokio::fs::remove_file` (result ignored by the callers). -/
def fsRemove (fs : Fs) (path : String) : Fs :=
  fs.filter (fun p => p.1 ≠ path)

/-- Read the contents of `path`, if the file exists. -/
def fsRead (fs : Fs) (path : String) : Option String :=
  (fs.find? (fun p => p.1 = path)).map (fun p => p.2)

/-- `kernel::manager::KernelManager` (src/kernel/manager.rs): the
subprocess handle reduced to liveness, plus the connection descriptor
and the connection-file path. -/
structure KernelManager where
  processAlive : Bool
  connection_info : ConnectionInfo
  connection_file_path : String
deriving DecidableEq, Repr

/-- `KernelManager::start` (src/kernel/manager.rs lines 24-88).
External inputs are explicit: `specs` the discovered kernelspec names,
`p0..p4` the five free ports from `peek_ports`, `key` the fresh UUID
authentication key, `freshPath` the uniquely named connection-file
path. -/
def KernelManager.start (specs : List String) (kernel_name : Option String)
    (p0 p1 p2 p3 p4 : Nat) (key freshPath : String) (fs : Fs) :
    Except String (KernelManager × Fs) :=
  let name := kernel_name.getD "python3"
  if specs = [] then
    Except.error "No Jupyter kernelspecs found. Is Jupyter installed?"
  else if name ∈ specs then
    let ci : ConnectionInfo :=
      { ip := "127.0.0.1", transport := "tcp",
        shell_port := p0, iopub_port := p1, stdin_port := p2,
        control_port := p3, hb_port := p4,
        key := key, signature_scheme := "hmac-sha256",
        kernel_name := some name }
    Except.ok
      ({ processAlive := true, connection_info := ci,
         connection_file_path := freshPath },
       fsWrite fs freshPath (serializeConnection ci))
  else Except.error "Kernelspec not found"

/-- `KernelManager::shutdown` (src/kernel/manager.rs lines 96-104):
kill the process (error ignored, so an already-dead process is fine),
remove the connection file (error ignored), and return `Ok(())`. -/
def KernelManager.shutdown (m : KernelManager) (fs : Fs) :
    Except String (KernelManager × Fs) :=
  Except.ok ({ m with processAlive := false },
             fsRemove fs m.connection_file_path)

/-- `KernelManager::restart` (src/kernel/manager.rs lines 108-143):
kill the existing process, re-resolve the kernelspec by the stored
kernel name, rewrite the same connection file from the unchanged
`connection_info`, and respawn. -/
def KernelManager.restart (specs : List String) (m : KernelManager)
    (fs : Fs) : Except String (KernelManager × Fs) :=
  let m1 : KernelManager := { m with processAlive := false }
  let name := m1.connection_info.kernel_name.getD "python3"
  if name ∈ specs then
    let fs1 := fsWrite fs m1.connection_file_path
                 (serializeConnection m1.connection_info)
    Except.ok ({ m1 with processAlive := true }, fs1)
  else Except.error "Kernelspec not found"

/-- `jupyter_protocol::CompleteReply` as consumed by the client (the
Rust field `matches` is a reserved word here, hence `matchesList`). -/
structure CompleteReply where
  matchesList : List String
  cursor_start : Nat
  cursor_end : Nat
deriving DecidableEq, Repr

/-- The shell-channel message contents `KernelClient::complete`
distinguishes: a completion reply, or anything else (e.g. a stray
execute-reply). -/
inductive ShellContent where
  | CompleteReplyContent (r : CompleteReply)
  | OtherReply
deriving DecidableEq, Repr

/-- One result of `self.shell.read()` inside the completion loop: a
message with its optional parent back-reference, or a read error.  The
end of the list models deadline expiry (no further reply arrives in
time). -/
inductive ShellRead where
  | msg (parent_msg_id : Option MsgId) (content : ShellContent)
  | readErr (e : String)
deriving DecidableEq, Repr

/-- The bounded read loop of `KernelClient::complete`
(src/kernel/client.rs lines 158-190): read shell replies until one
whose parent matches `msgId` carries a completion reply; discard every
other reply; fail on a read error; fail with a timeout error when the
stream of in-deadline replies is exhausted. -/
def completeLoop (msgId : MsgId) : List ShellRead → Except String CompleteReply
  | [] => Except.error "Timeout waiting for complete_reply"
  | ShellRead.readErr e :: _ =>
      Except.error ("Shell read error during completion: " ++ e)
  | ShellRead.msg parent content :: rest =>
      if parent = some msgId then
        match content with
        | ShellContent.CompleteReplyContent r => Except.ok r
        | ShellContent.OtherReply => completeLoop msgId rest
      else completeLoop msgId rest

/-- `KernelClient::complete` (src/kernel/client.rs lines 146-191):
generate a fresh identifier, send the completion request, then run the
bounded read loop against the replies the shell channel delivers before
the deadline. -/
def KernelClient.complete (c : KernelClient) (reads : List ShellRead) :
    KernelClient × Except String CompleteReply :=
  let msgId := c.nextId
  ({ nextId := c.nextId + 1, sent := c.sent }, completeLoop msgId reads)

/-- The background IOPub listener task spawned by `KernelClient::
connect` (src/kernel/client.rs lines 64-78), as a function from the
finite trace of transport read results to the messages it forwards into
the event queue (the queue receiver is assumed alive; its being dropped
only ends the loop with nothing sent). -/
def iopubListener : List (Except String IoPubMsg) → List KernelMessage
  | [] => []
  | Except.ok m :: rest => KernelMessage.IoPub m :: iopubListener rest
  | Except.error e :: _ => [KernelMessage.IoPubError e]

/-- Whether a shell read is a completion reply correlated to `msgId`. -/
def isCompletionFor (msgId : MsgId) : ShellRead → Bool
  | ShellRead.msg (some p) (ShellContent.CompleteReplyContent _) => p == msgId
  | _ => false

/-- Whether a shell read is a transport read error. -/
def isReadErr : ShellRead → Bool
  | ShellRead.readErr _ => true
  | _ => false

/-- Whether a forwarded kernel message is the listener's error marker. -/
def isErrMarker : KernelMessage → Bool
  | KernelMessage.IoPubError _ => true
  | _ => false

/-- Looking a key up after filtering that key away finds nothing. -/
lemma find?_filter_ne_key {α β : Type} [DecidableEq α]
    (m : List (α × β)) (k : α) :
    (m.filter (fun p => p.1 ≠ k)).find? (fun p => p.1 = k) = none := by
  induction m with
  | nil => rfl
  | cons a t ih =>
      by_cases h : a.1 = k
      · simp [List.filter_cons, h, ih]
      · simp [List.filter_cons, h, List.find?, ih]

/-- Filtering a key away twice is the same as once. -/
lemma filter_ne_key_idem {α β : Type} [DecidableEq α]
    (m : List (α × β)) (k : α) :
    ((m.filter (fun p => p.1 ≠ k)).filter (fun p => p.1 ≠ k))
      = m.filter (fun p => p.1 ≠ k) := by
  induction m with
  | nil => rfl
  | cons a t ih =>
      by_cases h : a.1 = k <;> simp [List.filter_cons, h, ih]

/-- Deleting a file makes it unreadable. -/
lemma fsRead_fsRemove_self (fs : Fs) (p : String) :
    fsRead (fsRemove fs p) p = none := by
  simp [fsRead, fsRemove, find?_filter_ne_key]

/-- Deleting a file twice is the same as once. -/
lemma fsRemove_idem (fs : Fs) (p : String) :
    fsRemove (fsRemove fs p) p = fsRemove fs p := by
  simp [fsRemove, filter_ne_key_idem]

/-- Writing then reading a file yields the written contents. -/
lemma fsRead_fsWrite_self (fs : Fs) (p c : String) :
    fsRead (fsWrite fs p c) p = some c := by
  simp [fsRead, fsWrite, List.find?]

/-- C7: the Process Supervisor's `shutdown()` kills the process and
deletes the connection file, succeeds unconditionally (also on an
already-dead process), and is idempotent: a second consecutive call
succeeds and returns the very same final state — process dead,
connection file absent. -/
theorem shutdown_idempotent (m : KernelManager) (fs : Fs) :
    ∃ m' fs', KernelManager.shutdown m fs = Except.ok (m', fs')
      ∧ m'.processAlive = false
      ∧ fsRead fs' m'.connection_file_path = none
      ∧ KernelManager.shutdown m' fs' = Except.ok (m', fs') := by
  refine ⟨{ m with processAlive := false }, fsRemove fs m.connection_file_path,
    rfl, rfl, fsRead_fsRemove_self fs m.connection_file_path, ?_⟩
  show Except.ok _ = _
  rw [fsRemove_idem]

/-- C6: a successful `restart()` replaces only the subprocess: the
ConnectionDescriptor (host, five ports, key, signature scheme, kernel
type) and the connection-file path are unchanged, and the same
connection file is rewritten with the serialization of that same
unchanged descriptor. -/
theorem restart_preserves_descriptor (specs : List String)
    (m m' : KernelManager) (fs fs' : Fs)
    (h : KernelManager.restart specs m fs = Except.ok (m', fs')) :
    m' = { m with processAlive := true }
    ∧ m'.connection_info = m.connection_info
    ∧ m'.connection_file_path = m.connection_file_path
    ∧ fsRead fs' m.connection_file_path
        = some (serializeConnection m.connection_info) := by
  unfold KernelManager.restart at h
  dsimp only at h
  split at h
  · simp only [Except.ok.injEq, Prod.mk.injEq] at h
    obtain ⟨hm, hfs⟩ := h
    subst hm
    subst hfs
    exact ⟨rfl, rfl, rfl, fsRead_fsWrite_self ..⟩
  · exact absurd h (by simp)

/-- A concrete connection descriptor for concrete evaluations. -/
def sampleCI : ConnectionInfo :=
  { ip := "127.0.0.1", transport := "tcp", shell_port := 50001,
    iopub_port := 50002, stdin_port := 50003, control_port := 50004,
    hb_port := 50005, key := "k", signature_scheme := "hmac-sha256",
    kernel_name := some "python3" }

/-- A concrete supervisor state for concrete evaluations. -/
def sampleManager : KernelManager :=
  { processAlive := true, connection_info := sampleCI,
    connection_file_path := "kernel-1.json" }

/-- Witness for C6: a concrete successful restart leaves the descriptor
and path unchanged and rewrites the file with the same serialization. -/
theorem restart_preserves_descriptor_witness :
    ({ sampleManager with processAlive := true } : KernelManager)
        = { sampleManager with processAlive := true }
    ∧ ({ sampleManager with processAlive := true } : KernelManager).connection_info
        = sampleManager.connection_info
    ∧ ({ sampleManager with processAlive := true } : KernelManager).connection_file_path
        = sampleManager.connection_file_path
    ∧ fsRead (fsWrite [] "kernel-1.json" (serializeConnection sampleCI))
        sampleManager.connection_file_path
        = some (serializeConnection sampleManager.connection_info) :=
  restart_preserves_descriptor ["python3"] sampleManager
    { sampleManager with processAlive := true } []
    (fsWrite [] "kernel-1.json" (serializeConnection sampleCI)) (by rfl)

/-- Over any read trace, the listener forwards at most one error
marker, and whenever an error marker appears in its output it is the
final forwarded message, with only ordinary forwarded events before
it. -/
lemma iopubListener_marker_bound (reads : List (Except String IoPubMsg)) :
    ((iopubListener reads).filter isErrMarker).length ≤ 1
    ∧ ∀ e, KernelMessage.IoPubError e ∈ iopubListener reads →
        ∃ pre, iopubListener reads = pre ++ [KernelMessage.IoPubError e]
          ∧ ∀ m ∈ pre, isErrMarker m = false := by
  induction reads with
  | nil => exact ⟨by simp [iopubListener], by simp [iopubListener]⟩
  | cons hd tl ih =>
      cases hd with
      | ok m =>
          refine ⟨by simpa [iopubListener, isErrMarker] using ih.1, ?_⟩
          intro e he
          rw [iopubListener, List.mem_cons] at he
          rcases he with he | he
          · exact absurd he (by simp)
          · obtain ⟨pre, hpre, hall⟩ := ih.2 e he
            refine ⟨KernelMessage.IoPub m :: pre, ?_, ?_⟩
            · rw [iopubListener, hpre]
              rfl
            · intro x hx
              rcases List.mem_cons.mp hx with hx | hx
              · subst hx
                rfl
              · exact hall x hx
      | error e0 =>
          refine ⟨by simp [iopubListener, isErrMarker], ?_⟩
          intro e he
          rw [iopubListener] at he
          have : e = e0 := by
            rcases List.mem_cons.mp he with h | h
            · exact (KernelMessage.IoPubError.injEq .. ▸ h)
            · exact absurd h (by simp)
          subst this
          exact ⟨[], rfl, by simp⟩

/-- C8: on a read error the listener sends exactly one error marker
and terminates without retrying.  A trace whose first read error is `e`
decomposes as `pre.map Except.ok ++ Except.error e :: rest`; the
listener's output is then exactly the forwards of the events read
before the error followed by the single error marker — nothing from
`rest` is ever forwarded and no second marker is ever emitted (the
marker count of that output is exactly one, and over an arbitrary trace
at most one, always final). -/
theorem iopub_listener_single_error (pre : List IoPubMsg) (e : String)
    (rest reads : List (Except String IoPubMsg)) :
    iopubListener (pre.map Except.ok ++ Except.error e :: rest)
      = pre.map KernelMessage.IoPub ++ [KernelMessage.IoPubError e]
    ∧ ((iopubListener (pre.map Except.ok ++ Except.error e :: rest)).filter
        isErrMarker).length = 1
    ∧ ((iopubListener reads).filter isErrMarker).length ≤ 1
    ∧ ∀ e', KernelMessage.IoPubError e' ∈ iopubListener reads →
        ∃ p, iopubListener reads = p ++ [KernelMessage.IoPubError e']
          ∧ ∀ m ∈ p, isErrMarker m = false := by
  have hmain : ∀ (l : List IoPubMsg),
      iopubListener (l.map Except.ok ++ Except.error e :: rest)
        = l.map KernelMessage.IoPub ++ [KernelMessage.IoPubError e] := by
    intro l
    induction l with
    | nil => rfl
    | cons m tl ih => simp [iopubListener, ih]
  refine ⟨hmain pre, ?_, (iopubListener_marker_bound reads).1,
    (iopubListener_marker_bound reads).2⟩
  rw [hmain pre, List.filter_append]
  have hpre : (pre.map KernelMessage.IoPub).filter isErrMarker = [] := by
    induction pre with
    | nil => rfl
    | cons m tl ih => simp [List.filter_cons, isErrMarker, ih]
  rw [hpre]
  rfl

/-- Witness for C8 at a concrete read trace containing an error:
the event read before the error is forwarded, the single error marker
is last, and the event read after the error is never forwarded. -/
theorem iopub_listener_single_error_witness :
    iopubListener
        [Except.ok ⟨none, IoPubContent.Other⟩, Except.error "boom",
         Except.ok ⟨none, IoPubContent.ExecuteInput⟩]
      = [KernelMessage.IoPub ⟨none, IoPubContent.Other⟩,
         KernelMessage.IoPubError "boom"] :=
  (iopub_listener_single_error [⟨none, IoPubContent.Other⟩] "boom"
    [Except.ok ⟨none, IoPubContent.ExecuteInput⟩] []).1

/-- Unfolding: a matching reply that is not a completion reply is
discarded and the loop continues. -/
lemma completeLoop_cons_matching_other (msgId : MsgId) (tl : List ShellRead) :
    completeLoop msgId (ShellRead.msg (some msgId) ShellContent.OtherReply :: tl)
      = completeLoop msgId tl := by
  simp [completeLoop]

/-- Unfolding: a reply with a non-matching back-reference is discarded
and the loop continues. -/
lemma completeLoop_cons_nonmatching (msgId : MsgId) (parent : Option MsgId)
    (content : ShellContent) (tl : List ShellRead) (hp : parent ≠ some msgId) :
    completeLoop msgId (ShellRead.msg parent content :: tl)
      = completeLoop msgId tl := by
  simp [completeLoop, hp]

/-- A successful result of the completion read loop is always a
completion reply whose back-reference matches the request identifier:
non-matching replies are never returned as the answer. -/
lemma completeLoop_ok_mem (msgId : MsgId) (reads : List ShellRead)
    (r : CompleteReply) (h : completeLoop msgId reads = Except.ok r) :
    ShellRead.msg (some msgId) (ShellContent.CompleteReplyContent r) ∈ reads := by
  induction reads with
  | nil => simp [completeLoop] at h
  | cons hd tl ih =>
      cases hd with
      | readErr e => simp [completeLoop] at h
      | msg parent content =>
          by_cases hp : parent = some msgId
          · subst hp
            cases content with
            | CompleteReplyContent rep =>
                have : rep = r := by
                  simpa [completeLoop] using h
                subst this
                exact List.mem_cons_self ..
            | OtherReply =>
                rw [completeLoop_cons_matching_other] at h
                exact List.mem_cons_of_mem _ (ih h)
          · rw [completeLoop_cons_nonmatching _ _ _ _ hp] at h
            exact List.mem_cons_of_mem _ (ih h)

/-- If no in-deadline reply is a matching completion reply and no read
errors occur, the completion read loop fails with the timeout error. -/
lemma completeLoop_timeout (msgId : MsgId) (reads : List ShellRead)
    (h : ∀ x ∈ reads, isCompletionFor msgId x = false ∧ isReadErr x = false) :
    completeLoop msgId reads = Except.error "Timeout waiting for complete_reply" := by
  induction reads with
  | nil => rfl
  | cons hd tl ih =>
      cases hd with
      | readErr e => exact absurd (h _ (List.mem_cons_self ..)).2 (by simp [isReadErr])
      | msg parent content =>
          have htl := ih (fun x hx => h x (List.mem_cons_of_mem _ hx))
          by_cases hp : parent = some msgId
          · subst hp
            cases content with
            | CompleteReplyContent rep =>
                exact absurd (h _ (List.mem_cons_self ..)).1
                  (by simp [isCompletionFor])
            | OtherReply =>
                rw [completeLoop_cons_matching_other]
                exact htl
          · rw [completeLoop_cons_nonmatching _ _ _ _ hp]
            exact htl

/-- C5: `complete()` runs a bounded read loop on the shell channel:
whenever it returns a reply, that reply is the completion reply
correlated to the request's own identifier (replies with a
non-matching back-reference are discarded, never returned), and if no
matching completion reply arrives before the deadline (the read trace
is exhausted without a match or a read error) the call fails with the
timeout error instead of hanging. -/
theorem complete_correlates_or_times_out (c : KernelClient)
    (reads : List ShellRead) :
    (∀ r, (c.complete reads).2 = Except.ok r →
       ShellRead.msg (some c.nextId) (ShellContent.CompleteReplyContent r) ∈ reads)
    ∧ ((∀ x ∈ reads, isCompletionFor c.nextId x = false ∧ isReadErr x = false) →
       (c.complete reads).2 = Except.error "Timeout waiting for complete_reply") :=
  ⟨fun r h => completeLoop_ok_mem c.nextId reads r h,
   fun h => completeLoop_timeout c.nextId reads h⟩

/-- Witness for C5: with only an unrelated pending reply and a
broadcast completion reply lacking a back-reference, a concrete
`complete()` call times out rather than consuming either. -/
theorem complete_correlates_witness :
    (KernelClient.complete { nextId := 7, sent := [] }
        [ShellRead.msg (some 3) ShellContent.OtherReply,
         ShellRead.msg none
           (ShellContent.CompleteReplyContent { matchesList := ["x"], cursor_start := 0, cursor_end := 1 })]).2
      = Except.error "Timeout waiting for complete_reply" :=
  (complete_correlates_or_times_out { nextId := 7, sent := [] }
    [ShellRead.msg (some 3) ShellContent.OtherReply,
     ShellRead.msg none
       (ShellContent.CompleteReplyContent { matchesList := ["x"], cursor_start := 0, cursor_end := 1 })]).2
    (by decide)

/-- The back-reference of a queued kernel message, if any. -/
def parentOf : KernelMessage → Option MsgId
  | KernelMessage.IoPub j => j.parent_msg_id
  | KernelMessage.ShellReply => none
  | KernelMessage.IoPubError _ => none

/-- Lookup-miss path of the dispatch rule: an IOPub event whose
back-reference is absent (or not in the table) modifies no cell. -/
lemma handle_miss_cells (app : App) (jmsg : IoPubMsg)
    (h : ∀ id, jmsg.parent_msg_id = some id →
        hmGet app.executing_cells id = none) :
    (handleKernelMessage app (KernelMessage.IoPub jmsg)).notebook_cells
      = app.notebook_cells := by
  rcases jmsg with ⟨parent, content⟩
  cases parent with
  | none =>
      cases content <;> simp [handleKernelMessage]
  | some id =>
      have hid := h id rfl
      cases content <;> simp [handleKernelMessage, hmRemove, hid, Option.bind]
      split <;> rfl

/-- Out-of-range correlation path: an IOPub event whose table entry
points past the end of the cell list modifies no cell. -/
lemma handle_oob_cells (app : App) (jmsg : IoPubMsg) (id : MsgId) (i : Nat)
    (hp : jmsg.parent_msg_id = some id)
    (hget : hmGet app.executing_cells id = some i)
    (hlen : app.notebook_cells.length ≤ i) :
    (handleKernelMessage app (KernelMessage.IoPub jmsg)).notebook_cells
      = app.notebook_cells := by
  rcases jmsg with ⟨parent, content⟩
  cases hp
  have hnone : app.notebook_cells[i]? = none := List.getElem?_eq_none hlen
  cases content <;>
    simp [handleKernelMessage, hmRemove, hget, Option.bind, hnone]
  split <;> rfl

/-- C9: an inbound correlated event whose recorded cell index is out of
range of the current cell list is dropped without modifying any cell
(every dispatch branch guards the index before using it). -/
theorem oob_event_drops_without_mutation (app : App) (msg : KernelMessage)
    (hoob : ∀ id i, parentOf msg = some id →
        hmGet app.executing_cells id = some i →
        app.notebook_cells.length ≤ i) :
    (handleKernelMessage app msg).notebook_cells = app.notebook_cells := by
  cases msg with
  | ShellReply => rfl
  | IoPubError e => rfl
  | IoPub jmsg =>
      cases hp : jmsg.parent_msg_id with
      | none => exact handle_miss_cells app jmsg (fun id h => absurd (hp ▸ h) (by simp))
      | some id =>
          cases hget : hmGet app.executing_cells id with
          | none =>
              refine handle_miss_cells app jmsg (fun id' h => ?_)
              rw [hp] at h
              cases h
              exact hget
          | some i =>
              exact handle_oob_cells app jmsg id i hp hget (hoob id i (by simp [parentOf, hp]) hget)

/-- Witness for C9: a stream event correlated to a deleted cell index
leaves the single remaining cell untouched. -/
theorem oob_event_drops_witness :
    (handleKernelMessage
        { notebook_cells := [{ id := "c0", cell_type := CellType.Code,
                               source := "", outputs := [],
                               execution_count := none,
                               execution_state := ExecutionState.Idle,
                               rendered := false }],
          selected_cell := 0, status_message := "", kernel_status := "idle",
          image_states := [], executing_cells := [(3, 5)],
          kernel_client := { nextId := 4, sent := [] } }
        (KernelMessage.IoPub ⟨some 3, IoPubContent.StreamContent "stdout" "hi"⟩)).notebook_cells
      = [{ id := "c0", cell_type := CellType.Code, source := "",
           outputs := [], execution_count := none,
           execution_state := ExecutionState.Idle, rendered := false }] :=
  oob_event_drops_without_mutation _ _ (by
    intro id i h1 h2
    simp only [parentOf, Option.some.injEq] at h1
    subst h1
    simp only [hmGet, List.find?] at h2
    simp at h2
    subst h2
    decide)

/-- C4: the pending-execution table is cleared unconditionally by
`restart_kernel` (before any fallible step, so on failed reconnects
too); any message delivered to the restarted state modifies no cell;
and in general an event whose back-reference is not present in the
table is silently ignored — no cell's outputs or state change. -/
theorem restart_clears_and_stale_ignored (app : App) (ok : Bool)
    (msg : KernelMessage) (app2 : App) (jmsg : IoPubMsg)
    (hmiss : ∀ id, jmsg.parent_msg_id = some id →
        hmGet app2.executing_cells id = none) :
    (restartKernel app ok).executing_cells = []
    ∧ (handleKernelMessage (restartKernel app ok) msg).notebook_cells
        = (restartKernel app ok).notebook_cells
    ∧ (handleKernelMessage app2 (KernelMessage.IoPub jmsg)).notebook_cells
        = app2.notebook_cells := by
  have hempty : (restartKernel app ok).executing_cells = [] := by
    cases ok <;> rfl
  refine ⟨hempty, ?_, handle_miss_cells app2 jmsg hmiss⟩
  cases msg with
  | ShellReply => rfl
  | IoPubError e => rfl
  | IoPub j =>
      refine handle_miss_cells _ j (fun id _ => ?_)
      rw [hempty]
      rfl

/-- Witness for C4: a concrete restart followed by a stale stream event
referencing the pre-restart identifier leaves the cell untouched. -/
theorem restart_clears_and_stale_ignored_witness :
    (restartKernel
        { notebook_cells := [], selected_cell := 0, status_message := "",
          kernel_status := "busy", image_states := [(0, 0)],
          executing_cells := [(9, 0)],
          kernel_client := { nextId := 10, sent := [] } } true).executing_cells = []
    ∧ (handleKernelMessage
        (restartKernel
          { notebook_cells := [], selected_cell := 0, status_message := "",
            kernel_status := "busy", image_states := [(0, 0)],
            executing_cells := [(9, 0)],
            kernel_client := { nextId := 10, sent := [] } } true)
        (KernelMessage.IoPub ⟨some 9, IoPubContent.StreamContent "stdout" "late"⟩)).notebook_cells
        = (restartKernel
          { notebook_cells := [], selected_cell := 0, status_message := "",
            kernel_status := "busy", image_states := [(0, 0)],
            executing_cells := [(9, 0)],
            kernel_client := { nextId := 10, sent := [] } } true).notebook_cells
    ∧ (handleKernelMessage
        { notebook_cells := [], selected_cell := 0, status_message := "",
          kernel_status := "idle", image_states := [], executing_cells := [],
          kernel_client := { nextId := 10, sent := [] } }
        (KernelMessage.IoPub ⟨some 9, IoPubContent.StreamContent "stdout" "late"⟩)).notebook_cells
        = ({ notebook_cells := [], selected_cell := 0, status_message := "",
             kernel_status := "idle", image_states := [], executing_cells := [],
             kernel_client := { nextId := 10, sent := [] } } : App).notebook_cells :=
  restart_clears_and_stale_ignored _ true
    (KernelMessage.IoPub ⟨some 9, IoPubContent.StreamContent "stdout" "late"⟩) _
    ⟨some 9, IoPubContent.StreamContent "stdout" "late"⟩
    (by intro id h; cases h; rfl)

/-- Whether an output record is a text stream with the given name. -/
def isStreamNamed (name : String) : CellOutput → Bool
  | CellOutput.Stream n _ => n == name
  | _ => false

/-- Number of output records for a given stream name. -/
def streamCount (name : String) (outs : List CellOutput) : Nat :=
  (outs.filter (isStreamNamed name)).length

/-- When no record of the stream name exists, the in-place append scan
reports failure and leaves the outputs unchanged. -/
lemma streamAppendAny_not_found (outs : List CellOutput) (name t : String)
    (h : streamCount name outs = 0) :
    streamAppendAny outs name t = (outs, false) := by
  induction outs with
  | nil => rfl
  | cons o rest ih =>
      cases o with
      | Stream n t0 =>
          have hn : ¬ n = name := by
            intro hcontra
            simp [streamCount, isStreamNamed, hcontra] at h
          have hrest : streamCount name rest = 0 := by
            simpa [streamCount, isStreamNamed, hn] using h
          simp [streamAppendAny, hn, ih hrest]
      | DisplayData d =>
          have hrest : streamCount name rest = 0 := by
            simpa [streamCount, isStreamNamed] using h
          simp [streamAppendAny, ih hrest]
      | ExecuteResult n d =>
          have hrest : streamCount name rest = 0 := by
            simpa [streamCount, isStreamNamed] using h
          simp [streamAppendAny, ih hrest]
      | Error en ev tb =>
          have hrest : streamCount name rest = 0 := by
            simpa [streamCount, isStreamNamed] using h
          simp [streamAppendAny, ih hrest]

/-- When no record of the stream name exists, a stream event pushes a
single fresh record at the end. -/
lemma processStream_not_found (outs : List CellOutput) (name t : String)
    (h : streamCount name outs = 0) :
    processStream outs name t = outs ++ [CellOutput.Stream name t] := by
  simp [processStream, streamAppendAny_not_found outs name t h]

/-- Record counting distributes over cons. -/
lemma streamCount_cons (nm : String) (o : CellOutput) (rest : List CellOutput) :
    streamCount nm (o :: rest)
      = (if isStreamNamed nm o then 1 else 0) + streamCount nm rest := by
  simp only [streamCount, List.filter_cons]
  split <;> simp [Nat.add_comm]

/-- When a record of the stream name exists, the in-place append scan
succeeds and preserves the number of records of every stream name. -/
lemma streamAppendAny_found (outs : List CellOutput) (name t : String)
    (h : 1 ≤ streamCount name outs) :
    (streamAppendAny outs name t).2 = true
    ∧ ∀ nm, streamCount nm (streamAppendAny outs name t).1
        = streamCount nm outs := by
  induction outs with
  | nil => simp [streamCount] at h
  | cons o rest ih =>
      cases o with
      | Stream n t0 =>
          by_cases hn : n = name
          · subst hn
            refine ⟨by simp [streamAppendAny], fun nm => ?_⟩
            rw [show streamAppendAny (CellOutput.Stream n t0 :: rest) n t
                  = (CellOutput.Stream n (t0 ++ t) :: rest, true) from by
                simp [streamAppendAny]]
            rw [streamCount_cons, streamCount_cons]
            simp [isStreamNamed]
          · have hrest : 1 ≤ streamCount name rest := by
              rw [streamCount_cons] at h
              simpa [isStreamNamed, hn] using h
            obtain ⟨h1, h2⟩ := ih hrest
            refine ⟨by simp [streamAppendAny, hn, h1], fun nm => ?_⟩
            simp only [streamAppendAny, if_neg hn]
            rw [streamCount_cons, streamCount_cons, h2 nm]
      | DisplayData d =>
          have hrest : 1 ≤ streamCount name rest := by
            rw [streamCount_cons] at h
            simpa [isStreamNamed] using h
          obtain ⟨h1, h2⟩ := ih hrest
          refine ⟨by simp [streamAppendAny, h1], fun nm => ?_⟩
          simp only [streamAppendAny]
          rw [streamCount_cons, streamCount_cons, h2 nm]
      | ExecuteResult n d =>
          have hrest : 1 ≤ streamCount name rest := by
            rw [streamCount_cons] at h
            simpa [isStreamNamed] using h
          obtain ⟨h1, h2⟩ := ih hrest
          refine ⟨by simp [streamAppendAny, h1], fun nm => ?_⟩
          simp only [streamAppendAny]
          rw [streamCount_cons, streamCount_cons, h2 nm]
      | Error en ev tb =>
          have hrest : 1 ≤ streamCount name rest := by
            rw [streamCount_cons] at h
            simpa [isStreamNamed] using h
          obtain ⟨h1, h2⟩ := ih hrest
          refine ⟨by simp [streamAppendAny, h1], fun nm => ?_⟩
          simp only [streamAppendAny]
          rw [streamCount_cons, streamCount_cons, h2 nm]

/-- When a record of the stream name exists, a stream event keeps the
record count of every stream name unchanged (no second record is ever
created for an existing name). -/
lemma processStream_found_count (outs : List CellOutput) (name t : String)
    (h : 1 ≤ streamCount name outs) :
    ∀ nm, streamCount nm (processStream outs name t) = streamCount nm outs := by
  obtain ⟨h1, h2⟩ := streamAppendAny_found outs name t h
  intro nm
  simp [processStream, h1, h2 nm]

/-- Appending to the unique trailing record of a stream name
concatenates the texts in place. -/
lemma processStream_append_last (outs : List CellOutput) (name t1 t2 : String)
    (h : streamCount name outs = 0) :
    processStream (outs ++ [CellOutput.Stream name t1]) name t2
      = outs ++ [CellOutput.Stream name (t1 ++ t2)] := by
  induction outs with
  | nil => simp [processStream, streamAppendAny]
  | cons o rest ih =>
      cases o with
      | Stream n t0 =>
          have hn : ¬ n = name := by
            intro hcontra
            simp [streamCount, isStreamNamed, hcontra] at h
          have hrest : streamCount name rest = 0 := by
            simpa [streamCount, isStreamNamed, hn] using h
          have := ih hrest
          simp only [processStream, streamAppendAny, List.cons_append, if_neg hn] at this ⊢
          by_cases hb : (streamAppendAny (rest ++ [CellOutput.Stream name t1]) name t2).2 <;>
            simp [hb] at this ⊢ <;> simp [this]
      | DisplayData d =>
          have hrest : streamCount name rest = 0 := by
            simpa [streamCount, isStreamNamed] using h
          have := ih hrest
          simp only [processStream, streamAppendAny, List.cons_append] at this ⊢
          by_cases hb : (streamAppendAny (rest ++ [CellOutput.Stream name t1]) name t2).2 <;>
            simp [hb] at this ⊢ <;> simp [this]
      | ExecuteResult n d =>
          have hrest : streamCount name rest = 0 := by
            simpa [streamCount, isStreamNamed] using h
          have := ih hrest
          simp only [processStream, streamAppendAny, List.cons_append] at this ⊢
          by_cases hb : (streamAppendAny (rest ++ [CellOutput.Stream name t1]) name t2).2 <;>
            simp [hb] at this ⊢ <;> simp [this]
      | Error en ev tb =>
          have hrest : streamCount name rest = 0 := by
            simpa [streamCount, isStreamNamed] using h
          have := ih hrest
          simp only [processStream, streamAppendAny, List.cons_append] at this ⊢
          by_cases hb : (streamAppendAny (rest ++ [CellOutput.Stream name t1]) name t2).2 <;>
            simp [hb] at this ⊢ <;> simp [this]

/-- Record counting distributes over list append. -/
lemma streamCount_append (nm : String) (l1 l2 : List CellOutput) :
    streamCount nm (l1 ++ l2) = streamCount nm l1 + streamCount nm l2 := by
  simp [streamCount, List.filter_append]

/-- Correlated stream event on an in-range cell: exactly the
StreamContent branch of the dispatch. -/
lemma handle_stream_hit (app : App) (id : MsgId) (i : Nat) (c : Cell)
    (name text : String)
    (hget : hmGet app.executing_cells id = some i)
    (hc : app.notebook_cells[i]? = some c) :
    handleKernelMessage app
        (KernelMessage.IoPub ⟨some id, IoPubContent.StreamContent name text⟩)
      = { app with
          notebook_cells := app.notebook_cells.set i
            { c with outputs := processStream c.outputs name text } } := by
  simp [handleKernelMessage, Option.bind, hget, hc]

/-- Correlated error event on an in-range cell: exactly the
ErrorOutput branch of the dispatch. -/
lemma handle_error_hit (app : App) (id : MsgId) (i : Nat) (c : Cell)
    (en ev : String) (tb : List String)
    (hget : hmGet app.executing_cells id = some i)
    (hc : app.notebook_cells[i]? = some c) :
    handleKernelMessage app
        (KernelMessage.IoPub ⟨some id, IoPubContent.ErrorOutput en ev tb⟩)
      = { app with
          notebook_cells := app.notebook_cells.set i
            { c with
              outputs := c.outputs ++ [CellOutput.Error en ev tb],
              execution_state := ExecutionState.Error } } := by
  simp [handleKernelMessage, Option.bind, hget, hc]

/-- Correlated idle-status event on an in-range cell: the table entry
is removed, and the state moves to Done exactly when it was still
Running, and is untouched otherwise. -/
lemma handle_idle_hit (app : App) (id : MsgId) (i : Nat) (c : Cell)
    (hget : hmGet app.executing_cells id = some i)
    (hc : app.notebook_cells[i]? = some c) :
    (∃ c', (handleKernelMessage app
        (KernelMessage.IoPub ⟨some id, IoPubContent.Status KStatus.Idle⟩)).notebook_cells[i]?
          = some c'
      ∧ c'.execution_state
          = (if c.execution_state = ExecutionState.Running then ExecutionState.Done
             else c.execution_state)
      ∧ c'.outputs = c.outputs)
    ∧ (handleKernelMessage app
        (KernelMessage.IoPub ⟨some id, IoPubContent.Status KStatus.Idle⟩)).executing_cells
        = app.executing_cells.filter (fun p => p.1 ≠ id) := by
  have hlt : i < app.notebook_cells.length := (List.getElem?_eq_some.mp hc).1
  by_cases hr : c.execution_state = ExecutionState.Running
  · constructor
    · refine ⟨{ c with execution_state := ExecutionState.Done }, ?_, by simp [hr], rfl⟩
      simp [handleKernelMessage, KStatus.toLowerString, hmRemove, hget, hc, hr,
        List.getElem?_set_self (by simpa using hlt)]
    · simp [handleKernelMessage, KStatus.toLowerString, hmRemove, hget, hc, hr]
  · constructor
    · refine ⟨c, ?_, by simp [hr], rfl⟩
      simp [handleKernelMessage, KStatus.toLowerString, hmRemove, hget, hc, hr]
    · simp [handleKernelMessage, KStatus.toLowerString, hmRemove, hget, hc, hr]

/-- C2: once an error event has been applied to a correlated cell
(state Error), a subsequent idle-status event for the same request
removes the table entry but leaves the state Error — and in general the
idle handler sets Done only when the state is still Running. -/
theorem error_state_sticky_under_idle (app : App) (id : MsgId) (i : Nat)
    (c : Cell) (en ev : String) (tb : List String)
    (hget : hmGet app.executing_cells id = some i)
    (hc : app.notebook_cells[i]? = some c) :
    (∃ c1, (handleKernelMessage app
        (KernelMessage.IoPub ⟨some id, IoPubContent.ErrorOutput en ev tb⟩)).notebook_cells[i]?
          = some c1
      ∧ c1.execution_state = ExecutionState.Error)
    ∧ (∃ c2, (handleKernelMessage
        (handleKernelMessage app
          (KernelMessage.IoPub ⟨some id, IoPubContent.ErrorOutput en ev tb⟩))
        (KernelMessage.IoPub ⟨some id, IoPubContent.Status KStatus.Idle⟩)).notebook_cells[i]?
          = some c2
      ∧ c2.execution_state = ExecutionState.Error)
    ∧ hmGet (handleKernelMessage
        (handleKernelMessage app
          (KernelMessage.IoPub ⟨some id, IoPubContent.ErrorOutput en ev tb⟩))
        (KernelMessage.IoPub ⟨some id, IoPubContent.Status KStatus.Idle⟩)).executing_cells id
        = none
    ∧ (∀ (b : App) (d : Cell), hmGet b.executing_cells id = some i →
        b.notebook_cells[i]? = some d →
        ∃ d', (handleKernelMessage b
            (KernelMessage.IoPub ⟨some id, IoPubContent.Status KStatus.Idle⟩)).notebook_cells[i]?
              = some d'
          ∧ d'.execution_state
              = (if d.execution_state = ExecutionState.Running then ExecutionState.Done
                 else d.execution_state)) := by
  have hlt : i < app.notebook_cells.length := (List.getElem?_eq_some.mp hc).1
  have herr := handle_error_hit app id i c en ev tb hget hc
  set c1 : Cell :=
    { c with outputs := c.outputs ++ [CellOutput.Error en ev tb],
             execution_state := ExecutionState.Error } with hc1
  have happ1cells :
      (handleKernelMessage app
        (KernelMessage.IoPub ⟨some id, IoPubContent.ErrorOutput en ev tb⟩)).notebook_cells[i]?
        = some c1 := by
    rw [herr]
    exact List.getElem?_set_self (by simpa using hlt)
  have happ1table :
      (handleKernelMessage app
        (KernelMessage.IoPub ⟨some id, IoPubContent.ErrorOutput en ev tb⟩)).executing_cells
        = app.executing_cells := by
    rw [herr]
  have hget1 : hmGet (handleKernelMessage app
      (KernelMessage.IoPub ⟨some id, IoPubContent.ErrorOutput en ev tb⟩)).executing_cells id
      = some i := by
    rw [happ1table]
    exact hget
  obtain ⟨⟨c2, hc2, hc2state, _⟩, htable2⟩ :=
    handle_idle_hit _ id i c1 hget1 happ1cells
  refine ⟨⟨c1, happ1cells, rfl⟩, ⟨c2, hc2, ?_⟩, ?_, ?_⟩
  · rw [hc2state]
    simp
  · rw [htable2, happ1table]
    simp [hmGet, find?_filter_ne_key]
  · intro b d hbget hbd
    obtain ⟨⟨d', hd', hd'state, _⟩, _⟩ := handle_idle_hit b id i d hbget hbd
    exact ⟨d', hd', hd'state⟩

/-- C3: two consecutive stream events with the same name on a
correlated cell that had no record of that name yield exactly one
record for that name, holding the two texts concatenated in arrival
order at the end of the outputs; and in general a stream event never
creates a second record for a stream name that already has one. -/
theorem stream_events_append_merge (app : App) (id : MsgId) (i : Nat)
    (c : Cell) (name t1 t2 : String)
    (hget : hmGet app.executing_cells id = some i)
    (hc : app.notebook_cells[i]? = some c)
    (hzero : streamCount name c.outputs = 0) :
    (∃ c2, (handleKernelMessage
        (handleKernelMessage app
          (KernelMessage.IoPub ⟨some id, IoPubContent.StreamContent name t1⟩))
        (KernelMessage.IoPub ⟨some id, IoPubContent.StreamContent name t2⟩)).notebook_cells[i]?
          = some c2
      ∧ c2.outputs = c.outputs ++ [CellOutput.Stream name (t1 ++ t2)]
      ∧ streamCount name c2.outputs = 1)
    ∧ (∀ (outs : List CellOutput) (t : String), 1 ≤ streamCount name outs →
        streamCount name (processStream outs name t) = streamCount name outs) := by
  have hlt : i < app.notebook_cells.length := (List.getElem?_eq_some.mp hc).1
  have h1 := handle_stream_hit app id i c name t1 hget hc
  set c1 : Cell := { c with outputs := processStream c.outputs name t1 } with hc1def
  have happ1cells :
      (handleKernelMessage app
        (KernelMessage.IoPub ⟨some id, IoPubContent.StreamContent name t1⟩)).notebook_cells[i]?
        = some c1 := by
    rw [h1]
    exact List.getElem?_set_self (by simpa using hlt)
  have hget1 : hmGet (handleKernelMessage app
      (KernelMessage.IoPub ⟨some id, IoPubContent.StreamContent name t1⟩)).executing_cells id
      = some i := by
    rw [h1]
    exact hget
  have h2 := handle_stream_hit _ id i c1 name t2 hget1 happ1cells
  refine ⟨⟨{ c1 with outputs := processStream c1.outputs name t2 }, ?_, ?_, ?_⟩,
    fun outs t h => processStream_found_count outs name t h name⟩
  · rw [h2]
    refine List.getElem?_set_self ?_
    rw [h1]
    simpa using hlt
  · show processStream c1.outputs name t2 = _
    rw [hc1def]
    show processStream (processStream c.outputs name t1) name t2 = _
    rw [processStream_not_found c.outputs name t1 hzero,
        processStream_append_last c.outputs name t1 t2 hzero]
  · show streamCount name (processStream c1.outputs name t2) = 1
    rw [hc1def]
    show streamCount name (processStream (processStream c.outputs name t1) name t2) = 1
    rw [processStream_not_found c.outputs name t1 hzero,
        processStream_append_last c.outputs name t1 t2 hzero,
        streamCount_append, hzero]
    simp [streamCount, isStreamNamed]

/-- A concrete running code cell for concrete evaluations. -/
def sampleCell : Cell :=
  { id := "c0", cell_type := CellType.Code, source := "1/0", outputs := [],
    execution_count := none, execution_state := ExecutionState.Running,
    rendered := false }

/-- A concrete one-cell application state with one in-flight request,
for concrete evaluations. -/
def sampleApp : App :=
  { notebook_cells := [sampleCell], selected_cell := 0, status_message := "",
    kernel_status := "busy", image_states := [],
    executing_cells := [(1, 0)], kernel_client := { nextId := 2, sent := [] } }

/-- Witness for C2: a concrete error event followed by the matching
idle-status event leaves the cell in the Error state. -/
theorem error_state_sticky_witness :
    hmGet sampleApp.executing_cells 1 = some 0
    ∧ sampleApp.notebook_cells[0]? = some sampleCell
    ∧ ∃ c2, (handleKernelMessage
        (handleKernelMessage sampleApp
          (KernelMessage.IoPub
            ⟨some 1, IoPubContent.ErrorOutput "ZeroDivisionError" "division by zero" []⟩))
        (KernelMessage.IoPub ⟨some 1, IoPubContent.Status KStatus.Idle⟩)).notebook_cells[0]?
          = some c2
      ∧ c2.execution_state = ExecutionState.Error :=
  ⟨by rfl, by rfl,
   (error_state_sticky_under_idle sampleApp 1 0 sampleCell
     "ZeroDivisionError" "division by zero" [] (by rfl) (by rfl)).2.1⟩

/-- Witness for C3: two concrete stdout stream events merge into one
record holding the concatenated text. -/
theorem stream_events_append_merge_witness :
    streamCount "stdout" sampleCell.outputs = 0
    ∧ ∃ c2, (handleKernelMessage
        (handleKernelMessage sampleApp
          (KernelMessage.IoPub ⟨some 1, IoPubContent.StreamContent "stdout" "he"⟩))
        (KernelMessage.IoPub ⟨some 1, IoPubContent.StreamContent "stdout" "llo"⟩)).notebook_cells[0]?
          = some c2
      ∧ c2.outputs = sampleCell.outputs ++ [CellOutput.Stream "stdout" ("he" ++ "llo")]
      ∧ streamCount "stdout" c2.outputs = 1 :=
  ⟨by rfl,
   (stream_events_append_merge sampleApp 1 0 sampleCell "stdout" "he" "llo"
     (by rfl) (by rfl) (by rfl)).1⟩

/-- Filtering a key that is bound nowhere is the identity. -/
lemma filter_ne_key_of_fresh (m : PendingTable) (k : MsgId)
    (h : ∀ p ∈ m, p.1 ≠ k) :
    m.filter (fun p => p.1 ≠ k) = m :=
  List.filter_eq_self.mpr (fun p hp => by simpa using h p hp)

/-- `execute_selected_cell` on an in-range Code cell, with the freshly
generated identifier not yet in the table: outputs cleared, state set
to Running, cached images invalidated, the request sent, and the
`(msg_id, cell index)` pair inserted. -/
lemma executeSelectedCell_code (app : App) (cell : Cell)
    (hc : app.notebook_cells[app.selected_cell]? = some cell)
    (hcode : cell.cell_type = CellType.Code)
    (hfresh : ∀ p ∈ app.executing_cells, p.1 ≠ app.kernel_client.nextId) :
    executeSelectedCell app = some
      { app with
        notebook_cells := app.notebook_cells.set app.selected_cell
          { cell with outputs := [], execution_state := ExecutionState.Running },
        image_states := app.image_states.filter (fun p => p.1 ≠ app.selected_cell),
        kernel_client :=
          { nextId := app.kernel_client.nextId + 1,
            sent := app.kernel_client.sent
              ++ [(app.kernel_client.nextId, cell.source)] },
        executing_cells :=
          (app.kernel_client.nextId, app.selected_cell) :: app.executing_cells } := by
  simp [executeSelectedCell, hc, hcode, Cell.clear_outputs, KernelClient.execute,
    hmInsert, List.filter_eq_self]
  exact fun a b hab => hfresh (a, b) hab

/-- One cell's update at a fixed index preserves the type of every
cell. -/
lemma set_preserves_types (l : List Cell) (i : Nat) (x c0 : Cell)
    (hc : l[i]? = some c0) (hx : x.cell_type = c0.cell_type) :
    ∀ (j : Nat) (c : Cell), l[j]? = some c →
      ∃ c', (l.set i x)[j]? = some c' ∧ c'.cell_type = c.cell_type := by
  intro j c hj
  by_cases hij : i = j
  · subst hij
    have hlt : i < l.length := (List.getElem?_eq_some.mp hj).1
    refine ⟨x, List.getElem?_set_self hlt, ?_⟩
    rw [hc] at hj
    cases hj
    exact hx
  · exact ⟨c, by rw [List.getElem?_set_ne hij]; exact hj, rfl⟩

/-- A sequence of `execute_selected_cell` calls at the given cell
indices, as issued by the user before any reply is processed. -/
def runExecs (app : App) : List Nat → Option App
  | [] => some app
  | i :: rest =>
    match executeSelectedCell { app with selected_cell := i } with
    | some app' => runExecs app' rest
    | none => none

/-- Invariant carried along a sequence of executes on Code cells: the
run succeeds, every call adds exactly one table entry, all keys stay
distinct, and every key stays below the identifier counter. -/
lemma runExecs_table (app : App) (idxs : List Nat)
    (hfresh : ∀ p ∈ app.executing_cells, p.1 < app.kernel_client.nextId)
    (hnodup : (app.executing_cells.map Prod.fst).Nodup)
    (hcode : ∀ i ∈ idxs, ∃ c, app.notebook_cells[i]? = some c
        ∧ c.cell_type = CellType.Code) :
    ∃ app', runExecs app idxs = some app'
      ∧ app'.executing_cells.length
          = idxs.length + app.executing_cells.length
      ∧ (app'.executing_cells.map Prod.fst).Nodup
      ∧ ∀ p ∈ app'.executing_cells, p.1 < app'.kernel_client.nextId := by
  induction idxs generalizing app with
  | nil => exact ⟨app, rfl, by simp, hnodup, hfresh⟩
  | cons i rest ih =>
      obtain ⟨c, hci, hctype⟩ := hcode i (List.mem_cons_self ..)
      have hstep := executeSelectedCell_code { app with selected_cell := i } c
        hci hctype (fun p hp => Nat.ne_of_lt (hfresh p hp))
      set app1 : App :=
        { app with
          selected_cell := i,
          notebook_cells := app.notebook_cells.set i
            { c with outputs := [], execution_state := ExecutionState.Running },
          image_states := app.image_states.filter (fun p => p.1 ≠ i),
          kernel_client :=
            { nextId := app.kernel_client.nextId + 1,
              sent := app.kernel_client.sent
                ++ [(app.kernel_client.nextId, c.source)] },
          executing_cells :=
            (app.kernel_client.nextId, i) :: app.executing_cells } with happ1
      have hfresh1 : ∀ p ∈ app1.executing_cells, p.1 < app1.kernel_client.nextId := by
        intro p hp
        rcases List.mem_cons.mp hp with h | h
        · subst h
          exact Nat.lt_succ_self _
        · exact Nat.lt_succ_of_lt (hfresh p h)
      have hnodup1 : (app1.executing_cells.map Prod.fst).Nodup := by
        refine List.Nodup.cons ?_ hnodup
        intro hmem
        obtain ⟨p, hp, hpk⟩ := List.mem_map.mp hmem
        exact absurd hpk (Nat.ne_of_lt (hfresh p hp))
      have hcode1 : ∀ j ∈ rest, ∃ d, app1.notebook_cells[j]? = some d
          ∧ d.cell_type = CellType.Code := by
        intro j hj
        obtain ⟨d, hd, hdt⟩ := hcode j (List.mem_cons_of_mem _ hj)
        obtain ⟨d', hd', hdt'⟩ := set_preserves_types app.notebook_cells i
          { c with outputs := [], execution_state := ExecutionState.Running } c
          hci rfl j d hd
        exact ⟨d', hd', hdt'.trans hdt⟩
      obtain ⟨app', hrun, hlen, hnd, hfr⟩ := ih app1 hfresh1 hnodup1 hcode1
      refine ⟨app', ?_, ?_, hnd, hfr⟩
      · rw [runExecs, hstep]
        exact hrun
      · rw [hlen]
        simp [happ1]
        omega

/-- C1: executing the selected Code cell clears its prior outputs, sets
its state to Running, and inserts the `(request id, cell index)` pair
into the pending-execution table at dispatch time; and a sequence of
such calls on Code cells, issued from an empty table before any idle
event arrives, succeeds and leaves exactly one table entry per call,
keyed by pairwise-distinct identifiers. -/
theorem execute_inserts_pending_entries (app : App) (cell : Cell)
    (idxs : List Nat)
    (hsel : app.notebook_cells[app.selected_cell]? = some cell)
    (hct : cell.cell_type = CellType.Code)
    (hempty : app.executing_cells = [])
    (hcode : ∀ i ∈ idxs, ∃ c, app.notebook_cells[i]? = some c
        ∧ c.cell_type = CellType.Code) :
    (∃ app1, executeSelectedCell app = some app1
      ∧ app1.notebook_cells[app.selected_cell]?
          = some { cell with
              outputs := [], execution_state := ExecutionState.Running }
      ∧ app1.executing_cells
          = [(app.kernel_client.nextId, app.selected_cell)])
    ∧ (∃ appN, runExecs app idxs = some appN
      ∧ appN.executing_cells.length = idxs.length
      ∧ (appN.executing_cells.map Prod.fst).Nodup) := by
  have hlt : app.selected_cell < app.notebook_cells.length :=
    (List.getElem?_eq_some.mp hsel).1
  have hfresh : ∀ p ∈ app.executing_cells, p.1 < app.kernel_client.nextId := by
    rw [hempty]
    intro p hp
    cases hp
  constructor
  · have hstep := executeSelectedCell_code app cell hsel hct
      (fun p hp => Nat.ne_of_lt (hfresh p hp))
    refine ⟨_, hstep, ?_, ?_⟩
    · exact List.getElem?_set_self (by simpa using hlt)
    · show (app.kernel_client.nextId, app.selected_cell) :: app.executing_cells = _
      rw [hempty]
  · obtain ⟨appN, hrun, hlen, hnd, _⟩ := runExecs_table app idxs hfresh
      (by rw [hempty]; exact List.nodup_nil) hcode
    refine ⟨appN, hrun, ?_, hnd⟩
    rw [hlen, hempty]
    simp

/-- A concrete idle one-cell application state with an empty table, for
concrete evaluations. -/
def sampleAppEmpty : App :=
  { notebook_cells := [sampleCell], selected_cell := 0, status_message := "",
    kernel_status := "idle", image_states := [], executing_cells := [],
    kernel_client := { nextId := 0, sent := [] } }

/-- Witness for C1: two executes of the concrete Code cell leave a
two-entry table with distinct identifiers. -/
theorem execute_inserts_pending_entries_witness :
    ∃ appN, runExecs sampleAppEmpty [0, 0] = some appN
      ∧ appN.executing_cells.length = 2
      ∧ (appN.executing_cells.map Prod.fst).Nodup :=
  (execute_inserts_pending_entries sampleAppEmpty sampleCell [0, 0]
    (by rfl) (by rfl) (by rfl)
    (by
      intro i hi
      have : i = 0 := by
        rcases List.mem_cons.mp hi with h | h
        · exact h
        · rcases List.mem_cons.mp h with h' | h'
          · exact h'
          · cases h'
      subst this
      exact ⟨sampleCell, rfl, rfl⟩)).2

/-- The per-index loop body never touches any other index. -/
lemma execCellAt_getElem_ne (app : App) (idx j : Nat) (h : idx ≠ j) :
    (execCellAt app idx).notebook_cells[j]? = app.notebook_cells[j]? := by
  unfold execCellAt
  cases hc : app.notebook_cells[idx]? with
  | none => rfl
  | some cell =>
      by_cases h1 : cell.cell_type = CellType.Markdown
      · simp [h1, List.getElem?_set_ne h]
      · by_cases h2 : cell.cell_type = CellType.Code
        · simp [h1, h2, List.getElem?_set_ne h]
        · simp [h1, h2]

/-- The loop body on a Markdown cell only sets its rendered flag. -/
lemma execCellAt_markdown (app : App) (idx : Nat) (c : Cell)
    (hc : app.notebook_cells[idx]? = some c)
    (hm : c.cell_type = CellType.Markdown) :
    execCellAt app idx
      = { app with
          notebook_cells := app.notebook_cells.set idx { c with rendered := true } } := by
  simp [execCellAt, hc, hm]

/-- The loop body on a Raw cell is a no-op. -/
lemma execCellAt_raw (app : App) (idx : Nat) (c : Cell)
    (hc : app.notebook_cells[idx]? = some c)
    (hr : c.cell_type = CellType.Raw) :
    execCellAt app idx = app := by
  simp [execCellAt, hc, hr]

/-- The loop body preserves the type of every cell. -/
lemma execCellAt_types_eq (app : App) (idx j : Nat) :
    ((execCellAt app idx).notebook_cells[j]?).map Cell.cell_type
      = (app.notebook_cells[j]?).map Cell.cell_type := by
  by_cases hij : idx = j
  · subst hij
    unfold execCellAt
    cases hc : app.notebook_cells[idx]? with
    | none => simp [hc]
    | some cell =>
        have hlt : idx < app.notebook_cells.length :=
          (List.getElem?_eq_some.mp hc).1
        by_cases h1 : cell.cell_type = CellType.Markdown
        · simp [h1, List.getElem?_set_self hlt, hc]
        · by_cases h2 : cell.cell_type = CellType.Code
          · simp [h1, h2, List.getElem?_set_self hlt, hc, Cell.clear_outputs]
          · simp [h1, h2, hc]
  · rw [execCellAt_getElem_ne app idx j hij]

/-- Any table entry produced by the loop body either pre-existed or
points at the Code cell the body just dispatched. -/
lemma execCellAt_table (app : App) (idx : Nat) (p : MsgId × Nat)
    (hp : p ∈ (execCellAt app idx).executing_cells) :
    p ∈ app.executing_cells
    ∨ ∃ c, app.notebook_cells[p.2]? = some c
        ∧ c.cell_type = CellType.Code := by
  unfold execCellAt at hp
  cases hc : app.notebook_cells[idx]? with
  | none =>
      rw [hc] at hp
      exact Or.inl hp
  | some cell =>
      rw [hc] at hp
      dsimp only at hp
      by_cases h1 : cell.cell_type = CellType.Markdown
      · rw [if_pos h1] at hp
        exact Or.inl hp
      · rw [if_neg h1] at hp
        by_cases h2 : cell.cell_type = CellType.Code
        · rw [if_neg (by simpa using h2)] at hp
          simp only [hmInsert] at hp
          rcases List.mem_cons.mp hp with h | h
          · subst h
            exact Or.inr ⟨cell, hc, h2⟩
          · exact Or.inl (List.mem_of_mem_filter h)
        · rw [if_pos (by simpa using h2)] at hp
          exact Or.inl hp

/-- Folding the loop over any index list: a non-Code cell ends exactly
as it started, except that a Markdown cell visited by the loop has its
rendered flag set. -/
lemma execAllGo_not_code (app : App) (l : List Nat) (i : Nat) (c : Cell)
    (hc : app.notebook_cells[i]? = some c)
    (hnc : c.cell_type ≠ CellType.Code) :
    (execAllGo app l).notebook_cells[i]?
      = some (if c.cell_type = CellType.Markdown ∧ i ∈ l
              then { c with rendered := true } else c) := by
  induction l generalizing app c with
  | nil => simpa [execAllGo] using hc
  | cons j rest ih =>
      rw [execAllGo]
      by_cases hij : j = i
      · subst hij
        have hlt : j < app.notebook_cells.length :=
          (List.getElem?_eq_some.mp hc).1
        cases htype : c.cell_type with
        | Code => exact absurd htype hnc
        | Markdown =>
            rw [execCellAt_markdown app j c hc htype]
            have hc' : (({ app with
                notebook_cells := app.notebook_cells.set j
                  { c with rendered := true } } : App)).notebook_cells[j]?
                = some { c with rendered := true } :=
              List.getElem?_set_self (by simpa using hlt)
            rw [ih _ _ hc' (by simp [htype])]
            by_cases hmem : j ∈ rest <;> simp [htype, hmem]
        | Raw =>
            rw [execCellAt_raw app j c hc htype]
            rw [ih _ _ hc hnc]
            simp [htype]
      · have hji : i ≠ j := fun h => hij h.symm
        have hc' : (execCellAt app j).notebook_cells[i]? = some c := by
          rw [execCellAt_getElem_ne app j i hij]
          exact hc
        rw [ih _ _ hc' hnc]
        simp [hji]

/-- Folding the loop over any index list: every table entry either
pre-existed or points at a Code cell. -/
lemma execAllGo_table (app : App) (l : List Nat) (p : MsgId × Nat)
    (hp : p ∈ (execAllGo app l).executing_cells) :
    p ∈ app.executing_cells
    ∨ ∃ c, app.notebook_cells[p.2]? = some c
        ∧ c.cell_type = CellType.Code := by
  induction l generalizing app with
  | nil => exact Or.inl hp
  | cons j rest ih =>
      rw [execAllGo] at hp
      rcases ih _ hp with h | ⟨c, hc, htype⟩
      · exact execCellAt_table app j p h
      · right
        have := execCellAt_types_eq app j p.2
        rw [hc] at this
        obtain ⟨c0, hc0, hct0⟩ := Option.map_eq_some'.mp this.symm
        exact ⟨c0, hc0, by rw [← htype, hct0]⟩

/-- C10: "executing" a Markdown cell only sets its rendered flag — the
application state is otherwise untouched (no request sent, no table
entry, outputs/state/counter unchanged); a Raw cell is skipped with
only a status message; and under `execute_all_cells` every non-Code
cell keeps its outputs, state and counter (Markdown gains only the
rendered flag) while every table entry ever inserted points at a Code
cell. -/
theorem markdown_exec_only_renders (app : App) (cell : Cell)
    (hsel : app.notebook_cells[app.selected_cell]? = some cell) :
    (cell.cell_type = CellType.Markdown →
       executeSelectedCell app = some
         { app with
           notebook_cells := app.notebook_cells.set app.selected_cell
             { cell with rendered := true } })
    ∧ (cell.cell_type = CellType.Raw →
       executeSelectedCell app
         = some { app with status_message := "Can only execute code cells" })
    ∧ (∀ (i : Nat) (c : Cell), app.notebook_cells[i]? = some c →
        c.cell_type ≠ CellType.Code →
        (executeAllCells app).notebook_cells[i]?
          = some (if c.cell_type = CellType.Markdown
                  then { c with rendered := true } else c))
    ∧ (∀ p ∈ (executeAllCells app).executing_cells,
        p ∈ app.executing_cells
        ∨ ∃ c, app.notebook_cells[p.2]? = some c
            ∧ c.cell_type = CellType.Code) := by
  refine ⟨?_, ?_, ?_, ?_⟩
  · intro hm
    simp [executeSelectedCell, hsel, hm]
  · intro hr
    simp [executeSelectedCell, hsel, hr]
  · intro i c hc hnc
    have hlt : i < app.notebook_cells.length :=
      (List.getElem?_eq_some.mp hc).1
    have hmem : i ∈ List.range app.notebook_cells.length :=
      List.mem_range.mpr hlt
    have := execAllGo_not_code app (List.range app.notebook_cells.length) i c hc hnc
    show (execAllGo app (List.range app.notebook_cells.length)).notebook_cells[i]? = _
    rw [this]
    simp [hmem]
  · intro p hp
    exact execAllGo_table app (List.range app.notebook_cells.length) p hp

/-- A concrete Markdown cell for concrete evaluations. -/
def sampleMdCell : Cell :=
  { id := "m0", cell_type := CellType.Markdown, source := "# title",
    outputs := [], execution_count := none,
    execution_state := ExecutionState.Idle, rendered := false }

/-- A concrete application state selecting a Markdown cell, for
concrete evaluations. -/
def sampleMdApp : App :=
  { notebook_cells := [sampleMdCell], selected_cell := 0,
    status_message := "", kernel_status := "idle", image_states := [],
    executing_cells := [], kernel_client := { nextId := 0, sent := [] } }

/-- Witness for C10: executing the concrete Markdown cell only sets its
rendered flag. -/
theorem markdown_exec_only_renders_witness :
    executeSelectedCell sampleMdApp = some
      { sampleMdApp with
        notebook_cells := sampleMdApp.notebook_cells.set 0
          { sampleMdCell with rendered := true } } :=
  (markdown_exec_only_renders sampleMdApp sampleMdCell (by rfl)).1 (by rfl)

end JupyterTui
